import Mathlib

/-!
# Verification of the `ln80/pii` PII-protection library

A shallow embedding, in Lean 4, of the parts of the `ln80/pii` Go library that
the specification's claims are about:

* the field-level pack/unpack layer and the `<pii:...>` wire format
  (`protector.go`, `wire_format.go`), including standard base64 and decimal
  codecs used by the wire format;
* the in-memory key engine and its cache wrapper (`memory/key_engine.go`);
* the `Protector` operations `Encrypt` / `Decrypt` / `Forget` / `Recover`
  (`protector.go`), over an abstract `Encrypter` mirroring the
  `core.Encrypter` interface (the concrete AES-GCM primitive is an external
  collaborator which the library treats opaquely);
* the structural skeleton of `aes/256_gcm.go`'s `Decrypt`
  (Go slice bounds included, so panics are observable);
* the DynamoDB engine's `DeleteUnusedKeys` range sweep
  (`dynamodb/key_engine.go`);
* the KMS envelope wrapper's `GetOrCreateKeys` key-size resolution
  (`kms/key_engine.go`).

Go strings are byte sequences; they are modelled as `List Nat` (`GoStr`),
with `goStr` turning an ASCII Lean literal into its byte list.  Go maps used
by the library are modelled as association lists with deterministic update
(the claims proved here are insensitive to Go's randomized map iteration
order and are stated set-wise where order could matter).  Stateful methods
become pure functions returning the new state.
-/

namespace PII

/-- A Go string / byte slice: a list of byte values. -/
abbrev GoStr := List Nat

/-- Byte list of an ASCII string literal (used to transcribe the Go source's
string literals). -/
def goStr (s : String) : GoStr := s.data.map Char.toNat

/-- `strings.HasPrefix`. -/
def hasPrefix (s pre : GoStr) : Bool := pre.isPrefixOf s

/-- `strings.TrimPrefix`: drop `pre` when it is a prefix, else return `s`. -/
def trimPrefix (s pre : GoStr) : GoStr :=
  if hasPrefix s pre then s.drop pre.length else s

theorem hasPrefix_append (pre rest : GoStr) : hasPrefix (pre ++ rest) pre = true := by
  simp [hasPrefix, List.isPrefixOf_iff_prefix]

theorem trimPrefix_append (pre rest : GoStr) : trimPrefix (pre ++ rest) pre = rest := by
  simp [trimPrefix, hasPrefix_append, List.drop_left]

/-! ## Association lists (Go maps with deterministic update) -/

/-- Lookup in an association list (first match wins). -/
def alookup {α : Type} : List (GoStr × α) → GoStr → Option α
  | [], _ => none
  | (k, v) :: rest, key => if k = key then some v else alookup rest key

/-- Insert-or-update in an association list. -/
def aupsert {α : Type} : List (GoStr × α) → GoStr → α → List (GoStr × α)
  | [], key, v => [(key, v)]
  | (k, w) :: rest, key, v =>
      if k = key then (k, v) :: rest else (k, w) :: aupsert rest key v

theorem alookup_aupsert_self {α : Type} (l : List (GoStr × α)) (k : GoStr) (v : α) :
    alookup (aupsert l k v) k = some v := by
  induction l with
  | nil => simp [aupsert, alookup]
  | cons hd tl ih =>
      obtain ⟨k', w⟩ := hd
      by_cases h : k' = k <;> simp [aupsert, alookup, h, ih]

theorem alookup_aupsert_ne {α : Type} (l : List (GoStr × α)) (k k' : GoStr) (v : α)
    (h : k ≠ k') : alookup (aupsert l k v) k' = alookup l k' := by
  induction l with
  | nil => simp [aupsert, alookup, h]
  | cons hd tl ih =>
      obtain ⟨k₀, w⟩ := hd
      by_cases h0 : k₀ = k
      · subst h0
        simp [aupsert, alookup, h]
      · by_cases h1 : k₀ = k' <;>
          simp [aupsert, alookup, h0, h1, ih, Ne.symm h]

/-! ## Go error values

Errors are modelled as a small inductive covering the three error shapes the
library builds: `errors.New` sentinels, `fmt.Errorf("%w: ...", err)` /
`errors.Join` wrappers, and the library's own `pii.Error` (`error.go`), whose
`Is` method compares messages only.  `errIs` mirrors `errors.Is`: identity at
the top, the custom `Is` for `pii.Error`, then recursion through `Unwrap`. -/

/-- A Go error value as built by this library.  A `pii.Error` without a base
is `piiE m ns sub none`; nesting through `Option` is avoided by giving
`pii.Error` two constructors. -/
inductive GoErr : Type where
  /-- `errors.New(name)` sentinel, compared by identity. -/
  | sentinel (name : String)
  /-- `fmt.Errorf("%w: ...", inner)` or `errors.Join(inner, _)`:
  a wrapper whose `Unwrap` yields `inner`. -/
  | wrap (msg : String) (inner : GoErr)
  /-- `pii.Error` (`error.go`) with a base error reachable through `Unwrap`. -/
  | piiWith (msg : String) (ns sub : GoStr) (base : GoErr)
  /-- `pii.Error` (`error.go`) without a base error. -/
  | piiPlain (msg : String) (ns sub : GoStr)
  deriving DecidableEq, Repr

/-- Does the `errors.Is` target match a `pii.Error` with message `m`
(`Error.Is` in `error.go` compares messages only)? -/
def piiIsTarget (m : String) : GoErr → Bool
  | .piiWith m' _ _ _ => m = m'
  | .piiPlain m' _ _ => m = m'
  | _ => false

/-- `errors.Is(err, target)`: identity, then `pii.Error.Is` (message equality),
then recursion into the wrapped error. -/
def errIs : GoErr → GoErr → Bool
  | .sentinel s, t => GoErr.sentinel s == t
  | .wrap m inner, t => (GoErr.wrap m inner == t) || errIs inner t
  | .piiWith m _ _ base, t => piiIsTarget m t || errIs base t
  | .piiPlain m _ _, t => piiIsTarget m t

/-- An error built only from sentinels and wrappers — the shape of every error
a `core.KeyEngine` implementation returns (engines never build `pii.Error`). -/
def coreErr : GoErr → Bool
  | .sentinel _ => true
  | .wrap _ inner => coreErr inner
  | .piiWith _ _ _ _ => false
  | .piiPlain _ _ _ => false

/-- A core-shaped error never satisfies `errors.Is` against a `pii.Error`
target: `pii.Error.Is` only matches `pii.Error` values. -/
theorem errIs_pii_of_coreErr (e : GoErr) (h : coreErr e = true)
    (m : String) (ns sub : GoStr) :
    errIs e (.piiPlain m ns sub) = false := by
  induction e with
  | sentinel s => simp [errIs]
  | wrap msg inner ih =>
      simp only [coreErr] at h
      simp [errIs, ih h]
  | piiWith _ _ _ _ _ => simp [coreErr] at h
  | piiPlain _ _ _ => simp [coreErr] at h

/-! Sentinels used by the claims (`core/interface.go`, `protector.go`,
`aes/256_gcm.go`). -/

/-- `core.ErrKeyNotFound`. -/
def errKeyNotFound : GoErr := .sentinel "encryption key not found"

/-- `core.ErrDecryptionFailure`. -/
def errDecryptionFailure : GoErr := .sentinel "failed to decrypt data"

/-- `pii.ErrSubjectForgotten` (`newErr("subject is forgotten")`) enriched with
the subject, as `Encrypt` raises it. -/
def errSubjectForgotten (sub : GoStr) : GoErr :=
  .piiPlain "subject is forgotten" [] sub

/-- `pii.ErrCannotRecoverSubject` enriched as `Recover` does. -/
def errCannotRecoverSubject (ns sub : GoStr) (base : GoErr) : GoErr :=
  .piiWith "cannot recover subject" ns sub base

/-- `pii.ErrRecoverSubjectFailure` enriched as `Recover` does. -/
def errRecoverSubjectFailure (ns sub : GoStr) (base : GoErr) : GoErr :=
  .piiWith "failed to recover subject" ns sub base

/-- The bare `pii.ErrCannotRecoverSubject` sentinel, as a caller would use it
as the target of `errors.Is`. -/
def errCannotRecoverTarget : GoErr := .piiPlain "cannot recover subject" [] []

/-- The bare `pii.ErrRecoverSubjectFailure` sentinel. -/
def errRecoverFailureTarget : GoErr := .piiPlain "failed to recover subject" [] []

/-- Decidable equality for `Except` results, used to settle concrete runs by
`decide`. -/
instance {ε α : Type} [DecidableEq ε] [DecidableEq α] : DecidableEq (Except ε α) := fun x y =>
  match x, y with
  | .ok a, .ok b =>
      if h : a = b then .isTrue (by rw [h]) else .isFalse (by simp [h])
  | .error a, .error b =>
      if h : a = b then .isTrue (by rw [h]) else .isFalse (by simp [h])
  | .ok _, .error _ => .isFalse (by simp)
  | .error _, .ok _ => .isFalse (by simp)

/-! ## The pack layer (`protector.go`)

The Protector marks an encrypted field value by prefixing it with
`packPrefix = "<pii::"`; `isPackedPII` requires the prefix plus at least one
further byte. -/

/-- `packPrefix = "<pii::"`. -/
def packPrefix : GoStr := goStr "<pii::"

/-- `isPackedPII`: has the `<pii::` prefix and is strictly longer than it. -/
def isPackedPII (cipher : GoStr) : Bool :=
  hasPrefix cipher packPrefix && decide (packPrefix.length < cipher.length)

/-- `packPII`: prefix the cipher text unless it is already packed. -/
def packPII (cipher : GoStr) : GoStr :=
  if isPackedPII cipher then cipher else packPrefix ++ cipher

/-- `unpackPII`: strip the prefix of a packed value; empty otherwise. -/
def unpackPII (cipher : GoStr) : GoStr :=
  if isPackedPII cipher then cipher.drop packPrefix.length else []

theorem isPackedPII_pack_of_ne_nil (c : GoStr) (hne : c ≠ [])
    (hnp : isPackedPII c = false) : isPackedPII (packPII c) = true := by
  have hlen : 0 < c.length := List.length_pos.mpr hne
  simp only [packPII, hnp, Bool.false_eq_true, if_false]
  simp only [isPackedPII, hasPrefix_append, Bool.true_and, List.length_append,
    decide_eq_true_eq]
  omega

theorem unpackPII_pack_of_ne_nil (c : GoStr) (hne : c ≠ [])
    (hnp : isPackedPII c = false) : unpackPII (packPII c) = c := by
  have h := isPackedPII_pack_of_ne_nil c hne hnp
  simp only [packPII, hnp, Bool.false_eq_true, if_false] at h ⊢
  simp [unpackPII, h, List.drop_left]

/-! ## The in-memory key engine (`memory/key_engine.go`)

`memory.engine` serves both as a bare store (`NewKeyEngine`, `origin == nil`)
and as a cache wrapper over an inner engine (`NewCacheWrapper`).  Every method
branches on `e.origin != nil`; the two roles are embedded as `store*`
functions (the `origin == nil` branches) and `c*` functions (the wrapper
branches over a bare store, the composition `NewProtector` builds by
default).  The per-namespace map `e.cache[namespace]` is modelled for the one
namespace the Protector under verification operates in; the claims never read
across namespaces. -/

/-- `core.KeyState`. -/
inductive KState : Type where
  | active
  | disabled
  | deleted
  deriving DecidableEq, Repr

/-- A `memory.keyCache` entry: key material, insertion time, state. -/
structure KeyEntry : Type where
  key : GoStr
  at' : Int
  state : KState
  deriving DecidableEq, Repr

/-- `newKeyCache(id, key)` at time `now`. -/
def newKeyCache (key : GoStr) (now : Int) : KeyEntry :=
  { key := key, at' := now, state := .active }

/-- The store's (or the wrapper's cache's) per-namespace map. -/
abbrev KeyTable := List (GoStr × KeyEntry)

/-- A `core.KeyMap` result. -/
abbrev KeyMap := List (GoStr × GoStr)

/-- Bare-store `GetKeys` (`origin == nil` branch): each requested ID present
and ACTIVE contributes its key; everything else is silently omitted. -/
def storeGetKeys (st : KeyTable) (ids : List GoStr) : KeyMap :=
  ids.foldl (fun acc id =>
    match alookup st id with
    | some e => if e.state = .active then acc ++ [(id, e.key)] else acc
    | none => acc) []

/-- Bare-store `GetOrCreateKeys` (`origin == nil` branch): start from
`GetKeys`; for each requested ID not found, create fresh material with
`keyGen` only when the ID has no record at all (a disabled / deleted record
blocks re-creation). -/
def storeGetOrCreateKeys (st : KeyTable) (ids : List GoStr)
    (keyGen : GoStr → GoStr) (now : Int) : KeyMap × KeyTable :=
  let keys := storeGetKeys st ids
  ids.foldl (fun (acc : KeyMap × KeyTable) id =>
    match alookup acc.1 id with
    | some _ => acc
    | none =>
        match alookup acc.2 id with
        | some _ => acc
        | none =>
            let k := keyGen id
            (acc.1 ++ [(id, k)], aupsert acc.2 id (newKeyCache k now)))
    (keys, st)

/-- Bare-store `DisableKey`: absent → `ErrKeyNotFound`; deleted →
`ErrKeyNotFound` wrapped; else set state DISABLED. -/
def storeDisableKey (st : KeyTable) (id : GoStr) : Except GoErr KeyTable :=
  match alookup st id with
  | none => .error errKeyNotFound
  | some e =>
      if e.state = .deleted then
        .error (.wrap "hard deleted key" errKeyNotFound)
      else
        .ok (aupsert st id { e with state := .disabled })

/-- Bare-store `RenableKey`: absent → `ErrKeyNotFound`; deleted →
`ErrKeyNotFound` wrapped; else set state ACTIVE. -/
def storeRenableKey (st : KeyTable) (id : GoStr) : Except GoErr KeyTable :=
  match alookup st id with
  | none => .error errKeyNotFound
  | some e =>
      if e.state = .deleted then
        .error (.wrap "hard deleted key" errKeyNotFound)
      else
        .ok (aupsert st id { e with state := .active })

/-- Bare-store `DeleteKey`: absent → no-op; else clear the material and set
state DELETED. -/
def storeDeleteKey (st : KeyTable) (id : GoStr) : KeyTable :=
  match alookup st id with
  | none => st
  | some e => aupsert st id { e with key := [], state := .deleted }

/-- The cache wrapper over a bare store (`NewCacheWrapper(NewKeyEngine(), ttl)`,
the engine `NewProtector` composes by default). -/
structure CachedEngine : Type where
  cache : KeyTable
  store : KeyTable
  ttl : Int
  deriving DecidableEq, Repr

/-- Wrapper `GetKeys`: serve present-and-ACTIVE entries from the cache
(present non-ACTIVE entries are skipped and not re-fetched), forward the
missing IDs to the wrapped store, and record whatever it returns into the
cache as ACTIVE. -/
def cGetKeys (e : CachedEngine) (ids : List GoStr) (now : Int) :
    KeyMap × CachedEngine :=
  let step := ids.foldl (fun (acc : KeyMap × List GoStr) id =>
    match alookup e.cache id with
    | some entry =>
        if entry.state = .active then (acc.1 ++ [(id, entry.key)], acc.2) else acc
    | none => (acc.1, acc.2 ++ [id])) ([], [])
  let originKeys := storeGetKeys e.store step.2
  let cache' := originKeys.foldl
    (fun c kv => aupsert c kv.1 (newKeyCache kv.2 now)) e.cache
  (step.1 ++ originKeys, { e with cache := cache' })

/-- Wrapper `GetOrCreateKeys`: delegate wholesale to the wrapped store, then
record every returned key into the cache as ACTIVE. -/
def cGetOrCreateKeys (e : CachedEngine) (ids : List GoStr)
    (keyGen : GoStr → GoStr) (now : Int) : KeyMap × CachedEngine :=
  let r := storeGetOrCreateKeys e.store ids keyGen now
  let cache' := r.1.foldl
    (fun c kv => aupsert c kv.1 (newKeyCache kv.2 now)) e.cache
  (r.1, { e with cache := cache', store := r.2 })

/-- Wrapper `DisableKey`: write through to the wrapped store first (its error
propagates, its success is not rolled back), then mutate the local cache
entry — a missing cache entry surfaces `ErrKeyNotFound` even after the
write-through succeeded. -/
def cDisableKey (e : CachedEngine) (id : GoStr) :
    Except GoErr Unit × CachedEngine :=
  match storeDisableKey e.store id with
  | .error err => (.error err, e)
  | .ok store' =>
      let e' := { e with store := store' }
      match alookup e.cache id with
      | none => (.error errKeyNotFound, e')
      | some entry =>
          if entry.state = .deleted then
            (.error (.wrap "hard deleted key" errKeyNotFound), e')
          else
            (.ok (), { e' with cache := aupsert e.cache id { entry with state := .disabled } })

/-- Wrapper `RenableKey`: same shape as `cDisableKey`, setting ACTIVE. -/
def cRenableKey (e : CachedEngine) (id : GoStr) :
    Except GoErr Unit × CachedEngine :=
  match storeRenableKey e.store id with
  | .error err => (.error err, e)
  | .ok store' =>
      let e' := { e with store := store' }
      match alookup e.cache id with
      | none => (.error errKeyNotFound, e')
      | some entry =>
          if entry.state = .deleted then
            (.error (.wrap "hard deleted key" errKeyNotFound), e')
          else
            (.ok (), { e' with cache := aupsert e.cache id { entry with state := .active } })

/-- Wrapper `DeleteKey`: write through, then clear material and mark the cache
entry DELETED (absent entry: no-op). -/
def cDeleteKey (e : CachedEngine) (id : GoStr) : CachedEngine :=
  let store' := storeDeleteKey e.store id
  match alookup e.cache id with
  | none => { e with store := store' }
  | some entry =>
      { e with store := store',
               cache := aupsert e.cache id { entry with key := [], state := .deleted } }

/-- A fresh default engine, as `NewProtector` builds it around a fresh
`memory.NewKeyEngine()` store, for any configured cache TTL. -/
def freshEngine (ttl : Int) : CachedEngine := { cache := [], store := [], ttl := ttl }

/-! ## The record walker (`struct.go`)

`scan` reflects over a struct pointer and yields a `piiStruct`: the resolved
subject ID (tag `subjectID`, with optional prefix already applied) and the
ordered PII fields, each a settable string with its `replace=` tag value
(empty when not configured).  The reflection itself is outside the model; a
scanned record is embedded directly as its resolved form.  `replace` applies
a callback to every field in order, aborting on the first error (the
callback of both `Encrypt` and `Decrypt` never mutates on its own — mutation
happens in a second buffered pass, so an aborted pass leaves the record
unchanged). -/

/-- One PII field slot: current value and configured replacement. -/
structure PIIField : Type where
  val : GoStr
  replacement : GoStr
  deriving DecidableEq, Repr

/-- A scanned record (`piiStruct`): resolved subject ID plus PII fields. -/
structure PIIStruct : Type where
  subID : GoStr
  fields : List PIIField
  deriving DecidableEq, Repr

/-- `piiMap.subjectIDs`: the record-level subject IDs, deduplicated, of a
scanned batch. -/
def piiSubjectIDs (recs : List PIIStruct) : List GoStr :=
  (recs.map (·.subID)).dedup

/-! ## The Protector (`protector.go`)

`core.Encrypter` is an interface field of the Protector; it is embedded as a
structure of functions.  The concrete AES-256-GCM implementation is an
external primitive the library treats opaquely; theorems about the Protector
take the properties they need of the encrypter as hypotheses (AES-GCM
encryption fails only on malformed keys, which the engine's own `KeyGen`
never produces, so `encrypt` is modelled total). -/

/-- Sequential fallible map, mirroring the Go loops that abort on the first
error (the buffered two-pass rewrite means an aborted pass leaves every
record unchanged). -/
def mapE {α β : Type} (f : α → Except GoErr β) : List α → Except GoErr (List β)
  | [] => .ok []
  | x :: xs =>
      match f x with
      | .error e => .error e
      | .ok y =>
          match mapE f xs with
          | .error e => .error e
          | .ok ys => .ok (y :: ys)

/-- The `core.Encrypter` interface: `Encrypt`, `Decrypt`, `KeyGen`. -/
structure Encrypter : Type where
  encrypt : GoStr → GoStr → GoStr → GoStr
  decrypt : GoStr → GoStr → GoStr → Except GoErr GoStr
  keyGen : GoStr → GoStr → GoStr

/-- `Encrypt`'s per-field computation (the buffered first pass of
`protector.Encrypt`): missing key → `ErrSubjectForgotten`; already-packed
value → kept; otherwise encrypt and pack. -/
def encryptField (E : Encrypter) (ns : GoStr) (keys : KeyMap) (subID : GoStr)
    (f : PIIField) : Except GoErr PIIField :=
  match alookup keys subID with
  | none => .error (errSubjectForgotten subID)
  | some key =>
      if isPackedPII f.val then .ok f
      else .ok { f with val := packPII (E.encrypt ns key f.val) }

/-- `protector.Encrypt` over scanned records: fetch-or-create keys for the
record-level subject IDs, then rewrite every field (two-pass buffering in the
source means an error leaves the records unchanged, which the `Except` result
captures). -/
def protectorEncrypt (E : Encrypter) (ns : GoStr) (e : CachedEngine)
    (recs : List PIIStruct) (now : Int) :
    Except GoErr (CachedEngine × List PIIStruct) :=
  if recs.isEmpty then .ok (e, recs)
  else
    let r := cGetOrCreateKeys e (piiSubjectIDs recs) (E.keyGen ns) now
    (mapE (fun (s : PIIStruct) =>
        (mapE (encryptField E ns r.1 s.subID) s.fields).map
          (fun fields' => { s with fields := fields' })) recs).map
      (fun recs' => (r.2, recs'))

/-- `Decrypt`'s per-field computation: missing key → the field's configured
replacement (without inspecting the value); unpacked value → kept; packed
value → unpack and decrypt (a decryption error aborts). -/
def decryptField (E : Encrypter) (ns : GoStr) (keys : KeyMap) (subID : GoStr)
    (f : PIIField) : Except GoErr PIIField :=
  match alookup keys subID with
  | none => .ok { f with val := f.replacement }
  | some key =>
      if !isPackedPII f.val then .ok f
      else (E.decrypt ns key (unpackPII f.val)).map (fun p => { f with val := p })

/-- `protector.Decrypt` over scanned records: fetch keys for the record-level
subject IDs (`structs.subjectIDs()`), then rewrite every field. -/
def protectorDecrypt (E : Encrypter) (ns : GoStr) (e : CachedEngine)
    (recs : List PIIStruct) (now : Int) :
    Except GoErr (CachedEngine × List PIIStruct) :=
  if recs.isEmpty then .ok (e, recs)
  else
    let r := cGetKeys e (piiSubjectIDs recs) now
    (mapE (fun (s : PIIStruct) =>
        (mapE (decryptField E ns r.1 s.subID) s.fields).map
          (fun fields' => { s with fields := fields' })) recs).map
      (fun recs' => (r.2, recs'))

/-- `protector.Forget`: graceful mode disables, otherwise deletes; any error
is wrapped into `ErrForgetSubjectFailure` with namespace and subject. -/
def protectorForget (graceful : Bool) (ns : GoStr) (e : CachedEngine)
    (subID : GoStr) : Except GoErr Unit × CachedEngine :=
  if graceful then
    match cDisableKey e subID with
    | (.ok (), e') => (.ok (), e')
    | (.error err, e') =>
        (.error (.piiWith "failed to forget subject" ns subID err), e')
  else
    (.ok (), cDeleteKey e subID)

/-- The error mapping of `protector.Recover`'s deferred block: an engine error
satisfying `errors.Is(err, core.ErrKeyNotFound)` becomes the public
`ErrCannotRecoverSubject`; any other error becomes
`ErrRecoverSubjectFailure`; both carry namespace and subject. -/
def recoverErrMap (ns subID : GoStr) (e : GoErr) : GoErr :=
  if errIs e errKeyNotFound then errCannotRecoverSubject ns subID e
  else errRecoverSubjectFailure ns subID e

/-- `protector.Recover`: call the engine's `RenableKey` and surface its error
through `recoverErrMap`. -/
def protectorRecover (ns : GoStr) (e : CachedEngine) (subID : GoStr) :
    Except GoErr Unit × CachedEngine :=
  match cRenableKey e subID with
  | (.ok (), e') => (.ok (), e')
  | (.error err, e') => (.error (recoverErrMap ns subID err), e')

/-! ## Decimal digits (`strconv.Itoa` / `strconv.Atoi`)

`wireFormat` renders the version with `strconv.Itoa`; `parseWireFormat` reads
it back with `strconv.Atoi` on a block the wire regex has already constrained
to decimal digits.  `goAtoi` models `Atoi` on such digit blocks, including
the `int64` range error. -/

/-- Is `c` an ASCII decimal digit (`\d`)? -/
def isDigitB (c : Nat) : Bool := 48 ≤ c && c ≤ 57

/-- Fuel-bounded digit expansion (structural recursion, so the kernel can
evaluate it inside `decide`). -/
def natToDecAux : Nat → Nat → GoStr
  | 0, _ => []
  | fuel + 1, n =>
      if n < 10 then [48 + n] else natToDecAux fuel (n / 10) ++ [48 + n % 10]

/-- Decimal digits of `n`, most significant first (byte values). -/
def natToDec (n : Nat) : GoStr := natToDecAux (n + 1) n

theorem natToDecAux_irrel (n : Nat) : ∀ f1 f2, n < f1 → n < f2 →
    natToDecAux f1 n = natToDecAux f2 n := by
  induction n using Nat.strong_induction_on with
  | _ n ih =>
      intro f1 f2 h1 h2
      match f1, f2 with
      | f1 + 1, f2 + 1 =>
          by_cases h10 : n < 10
          · simp [natToDecAux, h10]
          · have hlt : n / 10 < n := Nat.div_lt_self (by omega) (by omega)
            simp only [natToDecAux, if_neg h10]
            rw [ih (n / 10) hlt f1 f2 (by omega) (by omega)]

theorem natToDecAux_fuel (fuel n : Nat) (h : n < fuel) :
    natToDecAux fuel n = natToDec n :=
  natToDecAux_irrel n fuel (n + 1) h (Nat.lt_succ_self n)

/-- The defining recurrence of `natToDec`. -/
theorem natToDec_unfold (n : Nat) :
    natToDec n = if n < 10 then [48 + n] else natToDec (n / 10) ++ [48 + n % 10] := by
  rw [natToDec, natToDecAux]
  by_cases h10 : n < 10
  · simp [h10]
  · have : n / 10 < n := Nat.div_lt_self (by omega) (by omega)
    rw [if_neg h10, if_neg h10, natToDecAux_fuel n (n / 10) this]

/-- Numeric value of a digit string. -/
def decVal (s : GoStr) : Nat := s.foldl (fun a d => a * 10 + (d - 48)) 0

/-- `strconv.Itoa` for the `int` version value. -/
def intToDec (v : Int) : GoStr :=
  if v < 0 then 45 :: natToDec (-v).toNat else natToDec v.toNat

/-- `strconv.Atoi` restricted to the digit blocks the wire regex admits:
value of the digits, or an error when empty, non-digit, or beyond the
`int64` range. -/
def goAtoi (s : GoStr) : Except GoErr Int :=
  if s.isEmpty then .error (.sentinel "strconv.Atoi: invalid syntax")
  else if !s.all isDigitB then .error (.sentinel "strconv.Atoi: invalid syntax")
  else if decVal s ≤ 2 ^ 63 - 1 then .ok (decVal s)
  else .error (.sentinel "strconv.Atoi: value out of range")

theorem natToDec_ne_nil (n : Nat) : natToDec n ≠ [] := by
  rw [natToDec_unfold]
  split <;> simp

theorem natToDec_digits (n : Nat) : (natToDec n).all isDigitB = true := by
  induction n using Nat.strong_induction_on with
  | _ n ih =>
      rw [natToDec_unfold]
      split
      · next h =>
          simp only [List.all_cons, List.all_nil, Bool.and_true, isDigitB,
            Bool.and_eq_true, decide_eq_true_eq]
          omega
      · next h =>
          have hd := ih (n / 10) (Nat.div_lt_self (by omega) (by omega))
          have hm : n % 10 < 10 := Nat.mod_lt _ (by omega)
          simp only [List.all_append, hd, Bool.true_and, List.all_cons, List.all_nil,
            Bool.and_true]
          simp only [isDigitB, Bool.and_eq_true, decide_eq_true_eq]
          omega

theorem decVal_append_digit (s : GoStr) (d : Nat) :
    decVal (s ++ [d]) = decVal s * 10 + (d - 48) := by
  simp [decVal, List.foldl_append]

theorem decVal_natToDec (n : Nat) : decVal (natToDec n) = n := by
  induction n using Nat.strong_induction_on with
  | _ n ih =>
      rw [natToDec_unfold]
      split
      · next h => simp only [decVal, List.foldl_cons, List.foldl_nil]; omega
      · next h =>
          rw [decVal_append_digit, ih (n / 10) (Nat.div_lt_self (by omega) (by omega))]
          omega

theorem goAtoi_natToDec (n : Nat) (h : n < 2 ^ 63) :
    goAtoi (natToDec n) = .ok (n : Int) := by
  simp only [goAtoi, List.isEmpty_iff, natToDec_digits, Bool.not_true, decVal_natToDec]
  rw [if_neg (by simp [natToDec_ne_nil]), if_neg (by simp), if_pos (by omega)]

/-! ## Standard base64 (`encoding/base64.StdEncoding`)

The wire format carries the subject ID in standard base64 and the ciphertext
as a base64-looking component.  Encoding processes bytes in groups of three;
decoding processes characters in groups of four, accepting `=` padding only
at the end of the input (as Go's `StdEncoding.DecodeString` does). -/

/-- The base64 alphabet, index to byte value. -/
def b64EncChar (n : Nat) : Nat :=
  if n < 26 then 65 + n
  else if n < 52 then 97 + (n - 26)
  else if n < 62 then 48 + (n - 52)
  else if n = 62 then 43
  else 47

/-- Byte value to alphabet index; `none` outside the alphabet. -/
def b64DecChar (c : Nat) : Option Nat :=
  if 65 ≤ c && c ≤ 90 then some (c - 65)
  else if 97 ≤ c && c ≤ 122 then some (26 + (c - 97))
  else if 48 ≤ c && c ≤ 57 then some (52 + (c - 48))
  else if c = 43 then some 62
  else if c = 47 then some 63
  else none

/-- Is `c` in the regex class `[A-Za-z0-9+/]`? -/
def isB64Char (c : Nat) : Bool :=
  (65 ≤ c && c ≤ 90) || (97 ≤ c && c ≤ 122) || (48 ≤ c && c ≤ 57) || c = 43 || c = 47

/-- `base64.StdEncoding.EncodeToString`. -/
def b64Encode : List Nat → GoStr
  | [] => []
  | [a] => [b64EncChar (a / 4), b64EncChar (a % 4 * 16), 61, 61]
  | [a, b] =>
      [b64EncChar (a / 4), b64EncChar (a % 4 * 16 + b / 16), b64EncChar (b % 16 * 4), 61]
  | a :: b :: c :: rest =>
      b64EncChar (a / 4) :: b64EncChar (a % 4 * 16 + b / 16) ::
        b64EncChar (b % 16 * 4 + c / 64) :: b64EncChar (c % 64) :: b64Encode rest

/-- The `CorruptInputError` of `encoding/base64`. -/
def errB64 : GoErr := .sentinel "illegal base64 data"

/-- `base64.StdEncoding.DecodeString`: strict four-character groups, `=`
padding only at the end. -/
def b64Decode : GoStr → Except GoErr (List Nat)
  | [] => .ok []
  | c1 :: c2 :: c3 :: c4 :: rest =>
      match b64DecChar c1, b64DecChar c2 with
      | some x1, some x2 =>
          if c3 = 61 then
            if c4 = 61 ∧ rest = [] then .ok [x1 * 4 + x2 / 16]
            else .error errB64
          else
            match b64DecChar c3 with
            | some x3 =>
                if c4 = 61 then
                  if rest = [] then .ok [x1 * 4 + x2 / 16, x2 % 16 * 16 + x3 / 4]
                  else .error errB64
                else
                  match b64DecChar c4 with
                  | some x4 =>
                      match b64Decode rest with
                      | .ok tail =>
                          .ok ([x1 * 4 + x2 / 16, x2 % 16 * 16 + x3 / 4,
                                x3 % 4 * 64 + x4] ++ tail)
                      | .error e => .error e
                  | none => .error errB64
            | none => .error errB64
      | _, _ => .error errB64
  | _ => .error errB64

theorem b64DecChar_encChar (n : Nat) (h : n < 64) :
    b64DecChar (b64EncChar n) = some n := by
  revert h; revert n; decide

theorem b64EncChar_ne_61 (n : Nat) : b64EncChar n ≠ 61 := by
  by_cases h : n < 64
  · revert h; revert n; decide
  · simp only [b64EncChar]
    split <;> try split <;> try split <;> try split
    all_goals omega

theorem isB64Char_encChar (n : Nat) (h : n < 64) : isB64Char (b64EncChar n) = true := by
  revert h; revert n; decide

theorem b64_byte1 (a b : Nat) (hb : b < 256) :
    a / 4 * 4 + (a % 4 * 16 + b / 16) / 16 = a := by omega

theorem b64_byte2 (a b c : Nat) (hb : b < 256) (hc : c < 256) :
    (a % 4 * 16 + b / 16) % 16 * 16 + (b % 16 * 4 + c / 64) / 4 = b := by omega

theorem b64_byte3 (b c : Nat) (hc : c < 256) :
    (b % 16 * 4 + c / 64) % 4 * 64 + c % 64 = c := by omega

theorem b64_roundtrip (l : List Nat) (h : ∀ b ∈ l, b < 256) :
    b64Decode (b64Encode l) = .ok l := by
  induction l using b64Encode.induct with
  | case1 => simp [b64Encode, b64Decode]
  | case2 a =>
      have ha : a < 256 := h a (by simp)
      have h1 : a / 4 < 64 := by omega
      have h2 : a % 4 * 16 < 64 := by omega
      simp only [b64Encode, b64Decode, b64DecChar_encChar _ h1, b64DecChar_encChar _ h2,
        if_pos rfl, if_pos (by exact ⟨rfl, rfl⟩ : (61 = 61 ∧ ([] : GoStr) = []))]
      simp only [if_true, Except.ok.injEq, List.cons.injEq, and_true]
      omega
  | case3 a b =>
      have ha : a < 256 := h a (by simp)
      have hb : b < 256 := h b (by simp)
      have h1 : a / 4 < 64 := by omega
      have h2 : a % 4 * 16 + b / 16 < 64 := by omega
      have h3 : b % 16 * 4 < 64 := by omega
      simp only [b64Encode, b64Decode, b64DecChar_encChar _ h1, b64DecChar_encChar _ h2,
        b64DecChar_encChar _ h3, if_neg (b64EncChar_ne_61 _), if_pos rfl, if_pos rfl]
      simp only [if_true, Except.ok.injEq, List.cons.injEq, and_true]
      refine ⟨b64_byte1 a b hb, ?_⟩
      omega
  | case4 a b c rest ih =>
      have ha : a < 256 := h a (by simp)
      have hb : b < 256 := h b (by simp)
      have hc : c < 256 := h c (by simp)
      have hrest : ∀ x ∈ rest, x < 256 := fun x hx => h x (by simp [hx])
      have h1 : a / 4 < 64 := by omega
      have h2 : a % 4 * 16 + b / 16 < 64 := by omega
      have h3 : b % 16 * 4 + c / 64 < 64 := by omega
      have h4 : c % 64 < 64 := by omega
      simp only [b64Encode, b64Decode, b64DecChar_encChar _ h1, b64DecChar_encChar _ h2,
        b64DecChar_encChar _ h3, b64DecChar_encChar _ h4,
        if_neg (b64EncChar_ne_61 _), ih hrest]
      simp only [if_true, Except.ok.injEq, List.cons.injEq, List.append_eq,
        List.cons_append, List.nil_append, and_true]
      exact ⟨b64_byte1 a b hb, b64_byte2 a b c hb hc, b64_byte3 b c hc⟩

/-! ## The wire format (`wire_format.go`)

```
wireFormatRegex = ^<pii:\d*:[A-Za-z0-9+/]+={0,2}:[A-Za-z0-9+/]+={0,2}$
```

The colon (58) never occurs in `\d`, in the base64 class, or as padding, so
the regex is equivalent to: after the `<pii:` prefix, a (possibly empty)
digit block, a colon, a base64 component, a colon, a base64 component, end of
input — which is how `wireRegexMatch` decides it. -/

/-- The `<pii:` literal prefix. -/
def piiPrefix : GoStr := goStr "<pii:"

/-- Does `s` match `[A-Za-z0-9+/]+={0,2}` exactly? -/
def isB64Component (s : GoStr) : Bool :=
  let body := s.takeWhile isB64Char
  let rest := s.drop body.length
  !body.isEmpty && (rest = [] || rest = [61] || rest = [61, 61] : Bool)

/-- Split at the first colon, returning the parts before and after it. -/
def splitOnce58 : GoStr → Option (GoStr × GoStr)
  | [] => none
  | c :: rest =>
      if c = 58 then some ([], rest)
      else
        match splitOnce58 rest with
        | none => none
        | some (a, b) => some (c :: a, b)

/-- `strings.SplitN(s, ":", 3)`. -/
def splitN3 (s : GoStr) : List GoStr :=
  match splitOnce58 s with
  | none => [s]
  | some (a, r) =>
      match splitOnce58 r with
      | none => [a, r]
      | some (b, r2) => [a, b, r2]

/-- `wireFormatRegex.Match`. -/
def wireRegexMatch (s : GoStr) : Bool :=
  if hasPrefix s piiPrefix then
    let rest := s.drop piiPrefix.length
    let ds := rest.takeWhile isDigitB
    match rest.drop ds.length with
    | 58 :: r2 =>
        match splitOnce58 r2 with
        | some (a, b) => isB64Component a && isB64Component b
        | none => false
    | _ => false
  else false

/-- `isWireFormatted`: the `<pii:` prefix check followed by the regex match. -/
def isWireFormatted (s : GoStr) : Bool :=
  hasPrefix s piiPrefix && wireRegexMatch s

/-- `ErrInvalidWireFormat`. -/
def errInvalidWireFormat : GoErr := .sentinel "invalid PII wire format"

/-- `wireFormat(subjectID, cipherText, version...)`: the version digits are
emitted only when a version is supplied and exceeds 1; the subject ID is
standard-base64 encoded. -/
def wireFormat (subjectID cipherText : GoStr) (version : List Int) : GoStr :=
  let v : GoStr :=
    match version with
    | v0 :: _ => if 1 < v0 then intToDec v0 else []
    | [] => []
  piiPrefix ++ v ++ 58 :: b64Encode subjectID ++ 58 :: cipherText

/-- `parseWireFormat`: check the format, split the trimmed string at the
first two colons, read the version (`1` when the digit block is empty),
base64-decode the subject, and return the ciphertext block verbatim. -/
def parseWireFormat (s : GoStr) : Except GoErr (Int × GoStr × GoStr) :=
  if !isWireFormatted s then .error errInvalidWireFormat
  else
    match splitN3 (trimPrefix s piiPrefix) with
    | [d, subjB, ciph] =>
        match (if d.isEmpty then .ok 1 else goAtoi d : Except GoErr Int) with
        | .error e => .error (.wrap "invalid PII wire format" e)
        | .ok v =>
            match b64Decode subjB with
            | .error e => .error (.wrap "invalid PII wire format" e)
            | .ok subjBytes => .ok (v, subjBytes, ciph)
    | _ => .error errInvalidWireFormat

/-! Structural lemmas about the wire format. -/

theorem takeWhile_append_not {p : Nat → Bool} (xs ys : GoStr)
    (hxs : xs.all p = true) (hys : ys = [] ∨ p (ys.headI) = false) :
    (xs ++ ys).takeWhile p = xs := by
  induction xs with
  | nil =>
      cases hys with
      | inl h => simp [h]
      | inr h =>
          cases ys with
          | nil => simp
          | cons y ys' => simp only [List.headI] at h; simp [List.takeWhile, h]
  | cons x xs' ih =>
      simp only [List.all_cons, Bool.and_eq_true] at hxs
      simp [List.takeWhile, hxs.1, ih hxs.2]

theorem splitOnce58_append (a b : GoStr) (ha : a.all (· ≠ 58) = true) :
    splitOnce58 (a ++ 58 :: b) = some (a, b) := by
  induction a with
  | nil => simp [splitOnce58]
  | cons x xs ih =>
      simp only [List.all_cons, Bool.and_eq_true, decide_eq_true_eq] at ha
      simp [splitOnce58, ha.1, ih ha.2]

theorem b64EncChar_ne_58 (n : Nat) : b64EncChar n ≠ 58 := by
  by_cases h : n < 64
  · revert h; revert n; decide
  · simp only [b64EncChar]
    split <;> try split <;> try split <;> try split
    all_goals omega

/-- The base64 encoding splits into a nonempty class body followed by at most
two padding bytes. -/
theorem b64Encode_shape (l : List Nat) (hl : l ≠ []) (h : ∀ b ∈ l, b < 256) :
    ∃ body pads, b64Encode l = body ++ pads ∧ body.all isB64Char = true ∧
      body ≠ [] ∧ (pads = [] ∨ pads = [61] ∨ pads = [61, 61]) := by
  induction l using b64Encode.induct with
  | case1 => simp at hl
  | case2 a =>
      have ha : a < 256 := h a (by simp)
      refine ⟨[b64EncChar (a / 4), b64EncChar (a % 4 * 16)], [61, 61], by simp [b64Encode], ?_, by simp, by simp⟩
      simp [isB64Char_encChar _ (by omega : a / 4 < 64),
        isB64Char_encChar _ (by omega : a % 4 * 16 < 64)]
  | case3 a b =>
      have ha : a < 256 := h a (by simp)
      have hb : b < 256 := h b (by simp)
      refine ⟨[b64EncChar (a / 4), b64EncChar (a % 4 * 16 + b / 16),
        b64EncChar (b % 16 * 4)], [61], by simp [b64Encode], ?_, by simp, by simp⟩
      simp [isB64Char_encChar _ (by omega : a / 4 < 64),
        isB64Char_encChar _ (by omega : a % 4 * 16 + b / 16 < 64),
        isB64Char_encChar _ (by omega : b % 16 * 4 < 64)]
  | case4 a b c rest ih =>
      have ha : a < 256 := h a (by simp)
      have hb : b < 256 := h b (by simp)
      have hc : c < 256 := h c (by simp)
      have hrest : ∀ x ∈ rest, x < 256 := fun x hx => h x (by simp [hx])
      by_cases hre : rest = []
      · subst hre
        refine ⟨[b64EncChar (a / 4), b64EncChar (a % 4 * 16 + b / 16),
          b64EncChar (b % 16 * 4 + c / 64), b64EncChar (c % 64)], [],
          by simp [b64Encode], ?_, by simp, by simp⟩
        simp [isB64Char_encChar _ (by omega : a / 4 < 64),
          isB64Char_encChar _ (by omega : a % 4 * 16 + b / 16 < 64),
          isB64Char_encChar _ (by omega : b % 16 * 4 + c / 64 < 64),
          isB64Char_encChar _ (by omega : c % 64 < 64)]
      · obtain ⟨body, pads, heq, hall, hne, hpads⟩ := ih hre hrest
        refine ⟨b64EncChar (a / 4) :: b64EncChar (a % 4 * 16 + b / 16) ::
          b64EncChar (b % 16 * 4 + c / 64) :: b64EncChar (c % 64) :: body, pads,
          by simp [b64Encode, heq], ?_, by simp, hpads⟩
        simp [hall, isB64Char_encChar _ (by omega : a / 4 < 64),
          isB64Char_encChar _ (by omega : a % 4 * 16 + b / 16 < 64),
          isB64Char_encChar _ (by omega : b % 16 * 4 + c / 64 < 64),
          isB64Char_encChar _ (by omega : c % 64 < 64)]

theorem isB64Char_ne_61 (c : Nat) (h : isB64Char c = true) : c ≠ 61 := by
  simp only [isB64Char, Bool.or_eq_true, Bool.and_eq_true, decide_eq_true_eq] at h
  omega

theorem isB64Char_ne_58 (c : Nat) (h : isB64Char c = true) : c ≠ 58 := by
  simp only [isB64Char, Bool.or_eq_true, Bool.and_eq_true, decide_eq_true_eq] at h
  omega

/-- The base64 encoding of a nonempty byte list is a `[A-Za-z0-9+/]+={0,2}`
component. -/
theorem isB64Component_b64Encode (l : List Nat) (hl : l ≠ [])
    (h : ∀ b ∈ l, b < 256) : isB64Component (b64Encode l) = true := by
  obtain ⟨body, pads, heq, hall, hne, hpads⟩ := b64Encode_shape l hl h
  have h61 : isB64Char 61 = false := by decide
  have htake : (body ++ pads).takeWhile isB64Char = body := by
    apply takeWhile_append_not body pads hall
    rcases hpads with h | h | h <;> simp [h, h61]
  rw [isB64Component, heq]
  simp only [htake, List.drop_left, Bool.and_eq_true, Bool.not_eq_eq_eq_not,
    Bool.not_true, List.isEmpty_eq_false]
  refine ⟨hne, ?_⟩
  rcases hpads with h | h | h <;> simp [h]

theorem dropWhile_eq_drop_takeWhile {p : Nat → Bool} (s : GoStr) :
    s.dropWhile p = s.drop (s.takeWhile p).length := by
  induction s with
  | nil => simp
  | cons x xs ih =>
      by_cases h : p x = true <;>
        simp [List.dropWhile, List.takeWhile, h, ih]

/-- A base64 component contains no colon. -/
theorem isB64Component_no58 (s : GoStr) (h : isB64Component s = true) :
    s.all (· ≠ 58) = true := by
  simp only [isB64Component, Bool.and_eq_true, Bool.not_eq_eq_eq_not, Bool.not_true,
    List.isEmpty_eq_false, Bool.or_eq_true, decide_eq_true_eq] at h
  obtain ⟨hne, hrest⟩ := h
  have hsplit : s = s.takeWhile isB64Char ++ s.drop (s.takeWhile isB64Char).length := by
    conv_lhs => rw [← List.takeWhile_append_dropWhile (p := isB64Char) (l := s)]
    rw [dropWhile_eq_drop_takeWhile]
  apply List.all_eq_true.mpr
  intro c hc
  have hc2 : c ∈ s.takeWhile isB64Char ++ s.drop (s.takeWhile isB64Char).length := by
    rw [← hsplit]; exact hc
  rw [List.mem_append] at hc2
  rcases hc2 with hmem | hmem
  · have := List.mem_takeWhile_imp hmem
    simpa using isB64Char_ne_58 c this
  · rcases hrest with (h | h) | h <;> rw [h] at hmem <;> simp at hmem <;> simp [hmem]

theorem digits_no58 (xs : GoStr) (h : xs.all isDigitB = true) :
    xs.all (· ≠ 58) = true := by
  apply List.all_eq_true.mpr
  intro c hc
  have := List.all_eq_true.mp h c hc
  simp only [isDigitB, Bool.and_eq_true, decide_eq_true_eq] at this
  simp only [ne_eq, decide_eq_true_eq]
  omega

/-- Splitting the trimmed wire string at its first two colons recovers the
three components, provided the first two contain no colon. -/
theorem splitN3_wire (vd enc ciph : GoStr) (hvd : vd.all (· ≠ 58) = true)
    (henc : enc.all (· ≠ 58) = true) :
    splitN3 (vd ++ 58 :: (enc ++ 58 :: ciph)) = [vd, enc, ciph] := by
  simp only [splitN3, splitOnce58_append vd _ hvd, splitOnce58_append enc _ henc]

/-- The string built by `wireFormat` passes `isWireFormatted`, provided its
digit block is all digits and both components are well-formed. -/
theorem isWireFormatted_build (vd enc ciph : GoStr)
    (hvd : vd.all isDigitB = true)
    (henc : isB64Component enc = true) (hciph : isB64Component ciph = true) :
    isWireFormatted (piiPrefix ++ (vd ++ 58 :: (enc ++ 58 :: ciph))) = true := by
  have henc58 := isB64Component_no58 enc henc
  have htake : (vd ++ 58 :: (enc ++ 58 :: ciph)).takeWhile isDigitB = vd := by
    apply takeWhile_append_not _ _ hvd
    right
    simp [List.headI, isDigitB]
  simp only [isWireFormatted, hasPrefix_append, Bool.true_and, wireRegexMatch,
    if_true, List.drop_left, htake, splitOnce58_append enc _ henc58, henc, hciph,
    Bool.and_self]

/-- §4.6 round trip for versions ≥ 2 and nonempty subject: parsing the
formatted string recovers version, subject, and ciphertext. -/
theorem parse_wireFormat_of_ge2 (v : Int) (hv1 : 2 ≤ v) (hv2 : v < 2 ^ 63)
    (subj : GoStr) (hs : subj ≠ []) (hs256 : ∀ b ∈ subj, b < 256)
    (ciph : GoStr) (hc : isB64Component ciph = true) :
    parseWireFormat (wireFormat subj ciph [v]) = .ok (v, subj, ciph) := by
  have hform : wireFormat subj ciph [v]
      = piiPrefix ++ (natToDec v.toNat ++ 58 :: (b64Encode subj ++ 58 :: ciph)) := by
    rw [wireFormat]
    simp only [if_pos (by omega : (1:Int) < v)]
    rw [intToDec, if_neg (by omega : ¬ v < 0)]
    simp
  have hdig := natToDec_digits v.toNat
  have hwf := isWireFormatted_build (natToDec v.toNat) (b64Encode subj) ciph hdig
    (isB64Component_b64Encode subj hs hs256) hc
  have hne : (natToDec v.toNat).isEmpty = false := by
    simp [List.isEmpty_eq_false, natToDec_ne_nil]
  rw [hform, parseWireFormat, hwf]
  simp only [Bool.not_true, Bool.false_eq_true, if_false, trimPrefix_append,
    splitN3_wire _ _ _ (digits_no58 _ hdig)
      (isB64Component_no58 _ (isB64Component_b64Encode subj hs hs256)),
    hne, goAtoi_natToDec v.toNat (by omega : v.toNat < 2 ^ 63),
    b64_roundtrip subj hs256]
  simp [Int.toNat_of_nonneg (by omega : (0:Int) ≤ v)]

/-- §4.6 round trip for version 1 (the elided form). -/
theorem parse_wireFormat_of_le1 (v : Int) (hv : v ≤ 1)
    (subj : GoStr) (hs : subj ≠ []) (hs256 : ∀ b ∈ subj, b < 256)
    (ciph : GoStr) (hc : isB64Component ciph = true) :
    parseWireFormat (wireFormat subj ciph [v]) = .ok (1, subj, ciph) := by
  have hform : wireFormat subj ciph [v]
      = piiPrefix ++ ([] ++ 58 :: (b64Encode subj ++ 58 :: ciph)) := by
    rw [wireFormat]
    simp only [if_neg (by omega : ¬ (1:Int) < v)]
    simp
  have hwf := isWireFormatted_build [] (b64Encode subj) ciph (by simp)
    (isB64Component_b64Encode subj hs hs256) hc
  have hsplit := splitN3_wire [] (b64Encode subj) ciph (by simp)
    (isB64Component_no58 _ (isB64Component_b64Encode subj hs hs256))
  simp only [List.nil_append] at hsplit
  rw [hform, parseWireFormat, hwf]
  simp only [Bool.not_true, Bool.false_eq_true, if_false, trimPrefix_append,
    List.nil_append, hsplit, List.isEmpty_nil, if_true, b64_roundtrip subj hs256]

/-! ## AES-256-GCM `Decrypt` (`aes/256_gcm.go`)

Only the structure of the Go function is modelled: key-size validation
(`aes.NewCipher` accepts 16/24/32-byte keys), the nonce-splitting slice
expressions `cipherTxt[:nonceSize]` / `cipherTxt[nonceSize:]` — which PANIC
in Go when the ciphertext is shorter than the nonce — and the deferred
`errors.Join(core.ErrDecryptionFailure, err)` wrapper.  The GCM `Open`
primitive itself is an opaque parameter.  A `Join` is modelled as a `wrap`
whose `Unwrap` chain reaches `ErrDecryptionFailure`, which is what
`errors.Is` observes. -/

/-- Outcome of a Go function call: a value, a returned error, or a panic. -/
inductive GoResult (α : Type) : Type where
  | ok (a : α)
  | err (e : GoErr)
  | panicked (msg : String)
  deriving DecidableEq, Repr

/-- `aesgcm.NonceSize()` for a standard GCM over AES. -/
def gcmNonceSize : Nat := 12

/-- `prepareAdditionalData`: `ns:<namespace>`, empty for the empty namespace. -/
def prepareAdditionalData (ns : GoStr) : GoStr :=
  if ns = [] then [] else goStr "ns:" ++ ns

/-- `aes256gcm.Decrypt`, with the GCM `Open` primitive abstract.  The slice
expressions `cipherTxt[:12]` and `cipherTxt[12:]` are modelled with their Go
semantics: out-of-range bounds panic. -/
def aes256gcmDecrypt (gcmOpen : GoStr → GoStr → GoStr → Option GoStr)
    (nspace key cipherTxt : GoStr) : GoResult GoStr :=
  if ¬ (key.length = 16 ∨ key.length = 24 ∨ key.length = 32) then
    .err (.wrap "crypto/aes: invalid key size" errDecryptionFailure)
  else if cipherTxt.length < gcmNonceSize then
    .panicked "runtime error: slice bounds out of range"
  else
    match gcmOpen (cipherTxt.take gcmNonceSize) (cipherTxt.drop gcmNonceSize)
        (prepareAdditionalData nspace) with
    | some p => .ok p
    | none => .err (.wrap "cipher: message authentication failed" errDecryptionFailure)

/-! ## The DynamoDB key engine sweep (`dynamodb/key_engine.go`)

A key record carries the secondary sort value `_lsik`: `enabled@<subjectID>`
while ACTIVE, `disabled@<unix-seconds>` while DISABLED, absent once DELETED.
`DeleteUnusedKeys` issues one range query
`_lsik BETWEEN "disabled@"+(now-GracePeriod) AND "disabled@"+now`
and then `DeleteKey`s every returned subject.  DynamoDB compares string sort
keys by their UTF-8 bytes (`goStrLE`); the timestamps involved have equal
digit counts, for which byte order and numeric order agree. -/

/-- One key record of the DynamoDB table. -/
structure DKeyItem : Type where
  nspace : GoStr
  keyID : GoStr
  key : GoStr
  state : KState
  lsik : Option GoStr
  disabledAt : Option Nat
  deriving DecidableEq, Repr

/-- Lexicographic byte order on strings (DynamoDB sort-key order). -/
def goStrLE : GoStr → GoStr → Bool
  | [], _ => true
  | _ :: _, [] => false
  | a :: as, b :: bs =>
      if a < b then true else if b < a then false else goStrLE as bs

/-- `DisableKey`'s item update (condition: not DELETED): set state DISABLED,
stamp `disabledAt` only if absent, overwrite `_lsik` with `disabled@<now>`. -/
def dDisableItem (it : DKeyItem) (now : Nat) : DKeyItem :=
  if it.state = .deleted then it
  else { it with
    state := .disabled,
    disabledAt := some (it.disabledAt.getD now),
    lsik := some (goStr "disabled@" ++ natToDec now) }

/-- `DeleteKey`'s item update (condition: not DELETED, no-op otherwise): set
state DELETED and remove the `_lsik` value. -/
def dDeleteItem (it : DKeyItem) : DKeyItem :=
  if it.state = .deleted then it
  else { it with state := .deleted, key := [], lsik := none }

/-- Is the item's `_lsik` inside the queried `BETWEEN lo AND hi` range? -/
def inSweepRange (lo hi : GoStr) : Option GoStr → Bool
  | some l => goStrLE lo l && goStrLE l hi
  | none => false

/-- `DeleteUnusedKeys` as the cited source implements it: range-scan
`disabled@(now − GracePeriod) .. disabled@now` on `_lsik` within the
namespace, and delete every returned subject. -/
def deleteUnusedKeys (table : List DKeyItem) (ns : GoStr) (now grace : Nat) :
    List DKeyItem :=
  let lo := goStr "disabled@" ++ natToDec (now - grace)
  let hi := goStr "disabled@" ++ natToDec now
  table.map (fun it =>
    if it.nspace = ns ∧ inSweepRange lo hi it.lsik = true then dDeleteItem it else it)

/-! ## The KMS envelope wrapper (`kms/key_engine.go`)

`GetOrCreateKeys` first resolves the data-key size by a dry run of the
caller's key generator: a nil generator or a failing dry run keeps the
default 32; a 16- or 64-byte dry-run key selects that size; every other
length — including 32 — returns the error `incompatible resolved key
length`.  It then delegates to the inner engine with a synthetic generator
that has KMS generate a data key under the resolved master key, storing the
ciphertext blob inner-side and retaining the plaintext for the result map;
pre-existing keys are KMS-decrypted on the way out.  The KMS client and the
resolver are opaque total functions of the model. -/

/-- The KMS client operations used by the wrapper. -/
structure KmsService : Type where
  /-- `GenerateDataKey(master, numberOfBytes)` → (plaintext, ciphertext blob). -/
  generateDataKey : GoStr → Nat → GoStr × GoStr
  /-- `Decrypt(master, blob)` → plaintext. -/
  decrypt : GoStr → GoStr → GoStr

/-- The dry-run size resolution at the top of `GetOrCreateKeys`. -/
def kmsResolveNumberOfBytes (ns : GoStr)
    (keyGenFn : Option (GoStr → GoStr → Except GoErr GoStr)) :
    Except GoErr Nat :=
  match keyGenFn with
  | none => .ok 32
  | some kg =>
      match kg ns (goStr "tmpKeyID") with
      | .error _ => .ok 32
      | .ok tmpKey =>
          if tmpKey.length = 16 then .ok 16
          else if tmpKey.length = 64 then .ok 64
          else .error (.sentinel "incompatible resolved key length")

/-- `kms.engine.GetOrCreateKeys` over a bare in-memory inner store: resolve
the size, delegate with the synthetic ciphertext-storing generator, then
swap in plaintexts (retained for freshly created IDs, KMS-decrypted for
pre-existing ones). -/
def kmsGetOrCreateKeys (kms : KmsService) (resolver : GoStr → GoStr → GoStr)
    (originStore : KeyTable) (ns : GoStr) (ids : List GoStr)
    (keyGenFn : Option (GoStr → GoStr → Except GoErr GoStr)) (now : Int) :
    Except GoErr (KeyMap × KeyTable) :=
  match kmsResolveNumberOfBytes ns keyGenFn with
  | .error e => .error e
  | .ok numberOfBytes =>
      let keyGen := fun id => (kms.generateDataKey (resolver ns id) numberOfBytes).2
      let r := storeGetOrCreateKeys originStore ids keyGen now
      let keys := r.1.map (fun kv =>
        if alookup originStore kv.1 = none then
          (kv.1, (kms.generateDataKey (resolver ns kv.1) numberOfBytes).1)
        else
          (kv.1, kms.decrypt (resolver ns kv.1) kv.2))
      .ok (keys, r.2)

/-! ## Helper lemmas for `Except` and `mapM` computations -/

@[simp]
theorem exceptBind_ok {α β : Type} (x : α) (f : α → Except GoErr β) :
    (Except.ok x >>= f) = f x := rfl

@[simp]
theorem exceptBind_error {α β : Type} (e : GoErr) (f : α → Except GoErr β) :
    ((Except.error e : Except GoErr α) >>= f) = .error e := rfl

@[simp]
theorem exceptMap_ok {α β : Type} (x : α) (f : α → β) :
    (Except.ok x : Except GoErr α).map f = .ok (f x) := rfl

@[simp]
theorem exceptMap_error {α β : Type} (e : GoErr) (f : α → β) :
    (Except.error e : Except GoErr α).map f = .error e := rfl

@[simp]
theorem exceptPure_eq_ok {α : Type} (x : α) :
    (pure x : Except GoErr α) = .ok x := rfl

/-- A `mapE` whose function succeeds pointwise returns the pointwise map. -/
theorem mapE_ok_of_forall {α β : Type} (f : α → Except GoErr β) (g : α → β)
    (l : List α) (h : ∀ x ∈ l, f x = .ok (g x)) :
    mapE f l = .ok (l.map g) := by
  induction l with
  | nil => rfl
  | cons x xs ih =>
      rw [mapE, h x (by simp), ih (fun y hy => h y (by simp [hy]))]
      simp

/-- A `mapE` over a mapped list whose function succeeds pointwise. -/
theorem mapE_map_ok {α β γ : Type} (f : β → Except GoErr γ) (g : α → β)
    (g' : α → γ) (l : List α) (h : ∀ x ∈ l, f (g x) = .ok (g' x)) :
    mapE f (l.map g) = .ok (l.map g') := by
  induction l with
  | nil => rfl
  | cons x xs ih =>
      rw [List.map_cons, mapE, h x (by simp), ih (fun y hy => h y (by simp [hy]))]
      simp

/-! ## Concrete computations of the default engine composition -/

theorem cGetOrCreateKeys_fresh (ttl now : Int) (id : GoStr) (kg : GoStr → GoStr) :
    cGetOrCreateKeys (freshEngine ttl) [id] kg now =
      ([(id, kg id)],
       { cache := [(id, newKeyCache (kg id) now)],
         store := [(id, newKeyCache (kg id) now)], ttl := ttl }) := by
  simp [cGetOrCreateKeys, storeGetOrCreateKeys, storeGetKeys, freshEngine,
    alookup, aupsert]

theorem cGetKeys_single_active (st : KeyTable) (ttl now a : Int) (id k : GoStr) :
    cGetKeys ⟨[(id, ⟨k, a, .active⟩)], st, ttl⟩ [id] now =
      ([(id, k)], ⟨[(id, ⟨k, a, .active⟩)], st, ttl⟩) := by
  simp [cGetKeys, storeGetKeys, alookup]

theorem cGetKeys_single_disabled (st : KeyTable) (ttl now a : Int) (id k : GoStr) :
    cGetKeys ⟨[(id, ⟨k, a, .disabled⟩)], st, ttl⟩ [id] now =
      ([], ⟨[(id, ⟨k, a, .disabled⟩)], st, ttl⟩) := by
  simp [cGetKeys, storeGetKeys, alookup]

theorem cGetOrCreateKeys_single_active (ttl now a b : Int) (id k : GoStr)
    (kg : GoStr → GoStr) :
    cGetOrCreateKeys ⟨[(id, ⟨k, a, .active⟩)], [(id, ⟨k, b, .active⟩)], ttl⟩ [id] kg now =
      ([(id, k)], ⟨[(id, newKeyCache k now)], [(id, ⟨k, b, .active⟩)], ttl⟩) := by
  simp [cGetOrCreateKeys, storeGetOrCreateKeys, storeGetKeys, alookup, aupsert,
    newKeyCache]

theorem cDisableKey_single_active (ttl a b : Int) (id k k2 : GoStr) :
    cDisableKey ⟨[(id, ⟨k, a, .active⟩)], [(id, ⟨k2, b, .active⟩)], ttl⟩ id =
      (.ok (), ⟨[(id, ⟨k, a, .disabled⟩)], [(id, ⟨k2, b, .disabled⟩)], ttl⟩) := by
  simp [cDisableKey, storeDisableKey, alookup, aupsert]

/-! ## A toy authenticated encrypter

The `Encrypter` is an interface; the concrete AES-256-GCM primitive is an
external dependency.  Theorems about the Protector take the round-trip and
ciphertext-shape properties they rely on as hypotheses on an arbitrary
encrypter; `toyEncrypter` is one concrete instance satisfying them, used to
discharge those hypotheses in closed witnesses.  Its ciphertext is
`999 :: plaintext ++ 998 :: key ++ 997 :: namespace` (markers outside the
byte range), and decryption authenticates by checking the trailer. -/

/-- The trailer a toy ciphertext must carry to authenticate. -/
def toyTrailer (ns key : GoStr) : GoStr := 998 :: (key ++ 997 :: ns)

/-- A concrete `Encrypter` with checkable round-trip and authentication. -/
def toyEncrypter : Encrypter :=
  { encrypt := fun ns key v => 999 :: (v ++ toyTrailer ns key)
    decrypt := fun ns key c =>
      match c with
      | 999 :: rest =>
          if (toyTrailer ns key).length ≤ rest.length ∧
              rest.drop (rest.length - (toyTrailer ns key).length) = toyTrailer ns key
          then .ok (rest.take (rest.length - (toyTrailer ns key).length))
          else .error errDecryptionFailure
      | _ => .error errDecryptionFailure
    keyGen := fun _ id => 900 :: id }

theorem toyEncrypter_roundtrip (ns k v : GoStr) :
    toyEncrypter.decrypt ns k (toyEncrypter.encrypt ns k v) = .ok v := by
  simp only [toyEncrypter]
  rw [if_pos]
  · congr 1
    simp [List.take_left]
  · constructor
    · simp
    · simp [List.drop_left]

theorem toyEncrypter_ne_nil (ns k v : GoStr) : toyEncrypter.encrypt ns k v ≠ [] := by
  simp [toyEncrypter]

theorem toyEncrypter_not_packed (ns k v : GoStr) :
    isPackedPII (toyEncrypter.encrypt ns k v) = false := by
  have : packPrefix = 60 :: goStr "pii::" := by decide
  simp [toyEncrypter, isPackedPII, hasPrefix, this, List.isPrefixOf]

theorem mapE_singleton {α β : Type} (f : α → Except GoErr β) (x : α) :
    mapE f [x] = (f x).map (fun y => [y]) := by
  cases hfx : f x <;> simp [mapE, hfx]

theorem isPackedPII_packPII (c : GoStr) (h : c ≠ []) :
    isPackedPII (packPII c) = true := by
  by_cases hp : isPackedPII c = true
  · simp [packPII, hp]
  · exact isPackedPII_pack_of_ne_nil c h (by simpa using hp)

/-! # Claim theorems -/

/-! ## C7 — wire-format round trip and recognition -/

/-- **C7 (counterexample).** The claim "for every version v,
`parseWireFormat (wireFormat s c v)` returns `(v, s, c)`, and `wireFormat`
elides the version exactly when v equals 1" is false at `v = 0`: the code
elides every version ≤ 1, so parsing returns version 1, not 0. -/
theorem C7_version_zero_counterexample :
    parseWireFormat (wireFormat (goStr "abc") (goStr "YWJj") [0])
        = .ok (1, goStr "abc", goStr "YWJj") ∧
    parseWireFormat (wireFormat (goStr "abc") (goStr "YWJj") [0])
        ≠ .ok (0, goStr "abc", goStr "YWJj") ∧
    wireFormat (goStr "abc") (goStr "YWJj") [0]
        = wireFormat (goStr "abc") (goStr "YWJj") [] := by
  refine ⟨by decide, by decide, by decide⟩

/-- **C7 (amended).** For every version `1 ≤ v < 2^63` (the Go `int` range on
the emit side), nonempty subject ID (arbitrary bytes) and ciphertext matching
the base64-component pattern, `parseWireFormat (wireFormat s c v)` returns
`(v, s, c)`; `wireFormat` elides the version component exactly when `v ≤ 1`;
and recognition rejects `"<pii::"` and `"<PII::…"` as non-wire-formatted. -/
theorem C7_wire_roundtrip (v : Int) (h1 : 1 ≤ v) (h2 : v < 2 ^ 63)
    (subj : GoStr) (hs : subj ≠ []) (hs256 : ∀ b ∈ subj, b < 256)
    (ciph : GoStr) (hc : isB64Component ciph = true) :
    parseWireFormat (wireFormat subj ciph [v]) = .ok (v, subj, ciph) ∧
    (∀ w : Int, w ≤ 1 → wireFormat subj ciph [w] = wireFormat subj ciph []) ∧
    isWireFormatted (goStr "<pii::") = false ∧
    isWireFormatted (goStr "<PII::YWJj:YWJj") = false := by
  refine ⟨?_, ?_, by decide, by decide⟩
  · rcases lt_or_le v 2 with hv | hv
    · have hveq : v = 1 := by omega
      subst hveq
      exact parse_wireFormat_of_le1 1 (by omega) subj hs hs256 ciph hc
    · exact parse_wireFormat_of_ge2 v hv h2 subj hs hs256 ciph hc
  · intro w hw
    simp only [wireFormat, if_neg (by omega : ¬ (1:Int) < w)]

/-- Witness for C7: a concrete successful round trip at version 4. -/
theorem C7_wire_roundtrip_witness :
    parseWireFormat (wireFormat (goStr "abc") (goStr "YWJj") [4])
      = .ok (4, goStr "abc", goStr "YWJj") :=
  (C7_wire_roundtrip 4 (by decide) (by decide) (goStr "abc") (by decide)
    (by decide) (goStr "YWJj") (by decide)).1

/-! ## C9 — AES-GCM decrypt totality -/

/-- **C9 (failing input).** `aes256gcmDecrypt` with a valid 32-byte key
panics on the empty ciphertext (the Go slice expression `cipherTxt[:12]` is
out of range) instead of returning a decryption-failure error; on ciphertexts
of at least nonce length a failing tag does surface as an error satisfying
`errors.Is(err, core.ErrDecryptionFailure)`. -/
theorem C9_short_ciphertext_panics :
    aes256gcmDecrypt (fun _ _ _ => none) (goStr "tenant") (List.replicate 32 0) []
        = .panicked "runtime error: slice bounds out of range" ∧
    aes256gcmDecrypt (fun _ _ _ => none) (goStr "tenant") (List.replicate 32 0)
        (List.replicate 11 0)
        = .panicked "runtime error: slice bounds out of range" ∧
    aes256gcmDecrypt (fun _ _ _ => none) (goStr "tenant") (List.replicate 32 0)
        (List.replicate 12 0)
        = .err (.wrap "cipher: message authentication failed" errDecryptionFailure) ∧
    errIs (.wrap "cipher: message authentication failed" errDecryptionFailure)
        errDecryptionFailure = true := by
  refine ⟨by decide, by decide, by decide, by decide⟩

/-! ## C2 — the DynamoDB grace-period sweep -/

/-- A key disabled two grace periods before the sweep (well past grace:
per the claim it must be deleted). -/
def sweepItemOld : DKeyItem :=
  { nspace := goStr "tenant", keyID := goStr "old-subj", key := goStr "K1",
    state := .disabled,
    lsik := some (goStr "disabled@" ++ natToDec (1800000000 - 2 * 604800)),
    disabledAt := some (1800000000 - 2 * 604800) }

/-- A key disabled 100 seconds before the sweep (inside the grace window:
per the claim it must not be affected). -/
def sweepItemRecent : DKeyItem :=
  { nspace := goStr "tenant", keyID := goStr "recent-subj", key := goStr "K2",
    state := .disabled,
    lsik := some (goStr "disabled@" ++ natToDec (1800000000 - 100)),
    disabledAt := some (1800000000 - 100) }

/-- An active key (never to be affected by the sweep). -/
def sweepItemActive : DKeyItem :=
  { nspace := goStr "tenant", keyID := goStr "act-subj", key := goStr "K3",
    state := .active,
    lsik := some (goStr "enabled@" ++ goStr "act-subj"),
    disabledAt := none }

/-- **C2 (failing input).** With a 7-day grace period, the sweep's
`BETWEEN disabled@(now−grace) AND disabled@now` range keeps the key disabled
two grace periods ago — the claim (and `core.KeyEngine`'s documentation)
requires exactly that key to be deleted — while it deletes the key disabled
only 100 seconds ago, still inside its recovery window.  The active key is
untouched. -/
theorem C2_sweep_range_reversed :
    deleteUnusedKeys [sweepItemOld, sweepItemRecent, sweepItemActive]
        (goStr "tenant") 1800000000 604800
      = [sweepItemOld,
         { sweepItemRecent with state := .deleted, key := [], lsik := none },
         sweepItemActive] ∧
    sweepItemOld.disabledAt = some (1800000000 - 2 * 604800) ∧
    (1800000000 - 2 * 604800) + 604800 < 1800000000 ∧
    sweepItemRecent.disabledAt = some (1800000000 - 100) ∧
    1800000000 < (1800000000 - 100) + 604800 := by
  refine ⟨by decide, by decide, by decide, by decide, by decide⟩

/-! ## C6 — KMS data-key size resolution -/

/-- An opaque KMS client whose generated data keys and blobs are tagged with
the master key, so plaintext and ciphertext are distinguishable. -/
def kmsToy : KmsService :=
  { generateDataKey := fun master _ => (goStr "P:" ++ master, goStr "C:" ++ master)
    decrypt := fun _ blob => blob }

/-- A resolver mapping every subject to one master key. -/
def kmsToyResolver : GoStr → GoStr → GoStr := fun _ _ => goStr "master-1"

/-- A key generator of the shape of `aes.Key256GenFn`, parameterised by the
key length it produces. -/
def fixedLenKeyGen (n : Nat) : GoStr → GoStr → Except GoErr GoStr :=
  fun _ _ => .ok (List.replicate n 7)

/-- **C6 (failing input).** The dry-run switch accepts 16 and 64 but its
default branch rejects 32 — the library's own default `aes.Key256GenFn`
length, which both the claim and the adjacent source comment
("catch size: 16 or 32, or 64 bytes") name as supported.  With a 16-byte
generator (and with a nil generator, which defaults to 32) the wrapper works
as claimed: the inner engine stores the ciphertext blob and the caller gets
the plaintext. -/
theorem C6_kms_rejects_32_byte_keygen :
    kmsGetOrCreateKeys kmsToy kmsToyResolver [] (goStr "tenant") [goStr "kal5430"]
        (some (fixedLenKeyGen 32)) 0
      = .error (.sentinel "incompatible resolved key length") ∧
    kmsGetOrCreateKeys kmsToy kmsToyResolver [] (goStr "tenant") [goStr "kal5430"]
        (some (fixedLenKeyGen 16)) 0
      = .ok ([(goStr "kal5430", goStr "P:" ++ goStr "master-1")],
             [(goStr "kal5430", ⟨goStr "C:" ++ goStr "master-1", 0, .active⟩)]) ∧
    kmsGetOrCreateKeys kmsToy kmsToyResolver [] (goStr "tenant") [goStr "kal5430"]
        none 0
      = .ok ([(goStr "kal5430", goStr "P:" ++ goStr "master-1")],
             [(goStr "kal5430", ⟨goStr "C:" ++ goStr "master-1", 0, .active⟩)]) := by
  refine ⟨by decide, by decide, by decide⟩

/-! ## C10 — cache wrapper key-not-found without rollback -/

/-- **C10.** When the wrapped engine's `DisableKey` / `RenableKey`
write-through succeeds but the wrapper's local cache has no entry for the
subject, the wrapper returns `core.ErrKeyNotFound` — and the wrapped engine's
state change stands: the returned state carries the mutated inner store. -/
theorem C10_cache_keynotfound_no_rollback (store cache : KeyTable) (ttl : Int)
    (id : GoStr) (std str : KeyTable)
    (hd : storeDisableKey store id = .ok std)
    (hr : storeRenableKey store id = .ok str)
    (hc : alookup cache id = none) :
    cDisableKey ⟨cache, store, ttl⟩ id = (.error errKeyNotFound, ⟨cache, std, ttl⟩) ∧
    cRenableKey ⟨cache, store, ttl⟩ id = (.error errKeyNotFound, ⟨cache, str, ttl⟩) := by
  constructor
  · simp [cDisableKey, hd, hc]
  · simp [cRenableKey, hr, hc]

/-- Witness for C10: a concrete wrapper with an empty cache over a store
holding an active key; disabling flips the store entry to DISABLED yet the
wrapper reports `key not found`. -/
theorem C10_cache_keynotfound_witness :
    storeDisableKey [(goStr "u7", ⟨goStr "KY", 5, .active⟩)] (goStr "u7")
      = .ok [(goStr "u7", ⟨goStr "KY", 5, .disabled⟩)] ∧
    alookup ([] : KeyTable) (goStr "u7") = none ∧
    cDisableKey ⟨[], [(goStr "u7", ⟨goStr "KY", 5, .active⟩)], 20⟩ (goStr "u7")
      = (.error errKeyNotFound, ⟨[], [(goStr "u7", ⟨goStr "KY", 5, .disabled⟩)], 20⟩) :=
  ⟨by decide, by decide,
    (C10_cache_keynotfound_no_rollback [(goStr "u7", ⟨goStr "KY", 5, .active⟩)] [] 20
      (goStr "u7") [(goStr "u7", ⟨goStr "KY", 5, .disabled⟩)]
      [(goStr "u7", ⟨goStr "KY", 5, .active⟩)]
      (by decide) (by decide) (by decide)).1⟩

/-! ## C8 — `Recover` error mapping -/

/-- **C8.** `Recover` calls the engine's `RenableKey` and maps its error: a
(core-shaped) engine error surfaces as the public `ErrCannotRecoverSubject`
precisely when `errors.Is(err, core.ErrKeyNotFound)` holds, and as
`ErrRecoverSubjectFailure` otherwise; the two surfaced kinds are
distinguishable by `errors.Is`. -/
theorem C8_recover_error_mapping (st : CachedEngine) (ns sub : GoStr) (e : GoErr)
    (hcore : coreErr e = true) :
    protectorRecover ns st sub
      = (match cRenableKey st sub with
         | (.ok (), st1) => (.ok (), st1)
         | (.error err, st1) => (.error (recoverErrMap ns sub err), st1)) ∧
    errIs (recoverErrMap ns sub e) errCannotRecoverTarget = errIs e errKeyNotFound ∧
    errIs (recoverErrMap ns sub e) errRecoverFailureTarget = !errIs e errKeyNotFound ∧
    errIs (recoverErrMap ns sub e) errCannotRecoverTarget
      ≠ errIs (recoverErrMap ns sub e) errRecoverFailureTarget := by
  have h2 : errIs (recoverErrMap ns sub e) errCannotRecoverTarget
      = errIs e errKeyNotFound := by
    by_cases hk : errIs e errKeyNotFound = true
    · simp [recoverErrMap, hk, errCannotRecoverSubject, errIs, piiIsTarget,
        errCannotRecoverTarget]
    · simp only [Bool.not_eq_true] at hk
      simp [recoverErrMap, hk, errRecoverSubjectFailure, errIs, piiIsTarget,
        errCannotRecoverTarget, errIs_pii_of_coreErr e hcore]
  have h3 : errIs (recoverErrMap ns sub e) errRecoverFailureTarget
      = !errIs e errKeyNotFound := by
    by_cases hk : errIs e errKeyNotFound = true
    · simp [recoverErrMap, hk, errCannotRecoverSubject, errIs, piiIsTarget,
        errRecoverFailureTarget, errIs_pii_of_coreErr e hcore]
    · simp only [Bool.not_eq_true] at hk
      simp [recoverErrMap, hk, errRecoverSubjectFailure, errIs, piiIsTarget,
        errRecoverFailureTarget]
  refine ⟨rfl, h2, h3, ?_⟩
  rw [h2, h3]
  cases errIs e errKeyNotFound <;> simp

/-- Witness for C8: the engine's wrapped `hard deleted key` error — a
core-shaped error satisfying `errors.Is(·, ErrKeyNotFound)` — surfaces as
`ErrCannotRecoverSubject`. -/
theorem C8_recover_error_mapping_witness :
    coreErr (.wrap "hard deleted key" errKeyNotFound) = true ∧
    errIs (recoverErrMap (goStr "tenant") (goStr "kal5430")
        (.wrap "hard deleted key" errKeyNotFound)) errCannotRecoverTarget = true := by
  refine ⟨by decide, ?_⟩
  have h := (C8_recover_error_mapping (freshEngine 20) (goStr "tenant") (goStr "kal5430")
    (.wrap "hard deleted key" errKeyNotFound) (by decide)).2.1
  rw [h]
  decide

/-! ## Shared computations for the Protector claims -/

theorem piiSubjectIDs_single (id : GoStr) (fields : List PIIField) :
    piiSubjectIDs [⟨id, fields⟩] = [id] := by
  simp [piiSubjectIDs]

/-- `Encrypt` of a single fresh record: every field is kept when already
packed and otherwise encrypted and packed under the freshly created key. -/
theorem protectorEncrypt_fresh (E : Encrypter) (ns id : GoStr)
    (fields : List PIIField) (ttl now : Int) :
    protectorEncrypt E ns (freshEngine ttl) [⟨id, fields⟩] now
      = .ok (⟨[(id, ⟨E.keyGen ns id, now, .active⟩)],
              [(id, ⟨E.keyGen ns id, now, .active⟩)], ttl⟩,
             [⟨id, fields.map (fun f =>
                if isPackedPII f.val then f
                else ⟨packPII (E.encrypt ns (E.keyGen ns id) f.val), f.replacement⟩)⟩]) := by
  have hfield : ∀ f ∈ fields, encryptField E ns [(id, E.keyGen ns id)] id f
      = .ok (if isPackedPII f.val then f
             else ⟨packPII (E.encrypt ns (E.keyGen ns id) f.val), f.replacement⟩) := by
    intro f hf
    rw [encryptField]
    simp only [alookup, if_pos rfl]
    by_cases hp : isPackedPII f.val = true <;> simp [hp]
  have hmap := mapE_ok_of_forall _ _ fields hfield
  rw [protectorEncrypt,
    if_neg (by simp : ¬ ([(⟨id, fields⟩ : PIIStruct)] : List PIIStruct).isEmpty = true)]
  rw [piiSubjectIDs_single, cGetOrCreateKeys_fresh]
  simp [mapE_singleton, hmap, newKeyCache]

/-- `Encrypt` on an engine already holding the subject ACTIVE, when every
field is already packed: the records come back unchanged. -/
theorem protectorEncrypt_active_packed (E : Encrypter) (ns id k : GoStr)
    (fields2 : List PIIField) (ttl a b now2 : Int)
    (hp : ∀ f ∈ fields2, isPackedPII f.val = true) :
    protectorEncrypt E ns ⟨[(id, ⟨k, a, .active⟩)], [(id, ⟨k, b, .active⟩)], ttl⟩
        [⟨id, fields2⟩] now2
      = .ok (⟨[(id, ⟨k, now2, .active⟩)], [(id, ⟨k, b, .active⟩)], ttl⟩,
             [⟨id, fields2⟩]) := by
  have hfield : ∀ f ∈ fields2, encryptField E ns [(id, k)] id f = .ok f := by
    intro f hf
    rw [encryptField]
    simp only [alookup, if_pos rfl]
    simp [hp f hf]
  have hmap := mapE_ok_of_forall _ (fun f => f) fields2 hfield
  rw [protectorEncrypt,
    if_neg (by simp : ¬ ([(⟨id, fields2⟩ : PIIStruct)] : List PIIStruct).isEmpty = true)]
  rw [piiSubjectIDs_single, cGetOrCreateKeys_single_active]
  simp [mapE_singleton, hmap, newKeyCache]

/-! ## C4 — `Encrypt` idempotence -/

/-- **C4.** For every namespace, subject and record, and any encrypter whose
ciphertexts are nonempty (AES-GCM always appends a tag), `Encrypt` is
idempotent: a second `Encrypt` of the already-encrypted records returns them
unchanged, because every field value is then in packed form and the
packed-detection check skips it. -/
theorem C4_encrypt_idempotent (E : Encrypter)
    (Hne : ∀ ns k v, E.encrypt ns k v ≠ [])
    (ns id : GoStr) (fields : List PIIField) (ttl now now2 : Int) :
    ∃ e1 recs1 e2,
      protectorEncrypt E ns (freshEngine ttl) [⟨id, fields⟩] now = .ok (e1, recs1) ∧
      protectorEncrypt E ns e1 recs1 now2 = .ok (e2, recs1) := by
  refine ⟨_, _, _, protectorEncrypt_fresh E ns id fields ttl now,
    protectorEncrypt_active_packed E ns id (E.keyGen ns id) _ ttl now now now2 ?_⟩
  intro f hf
  rw [List.mem_map] at hf
  obtain ⟨g, hg, rfl⟩ := hf
  by_cases hpg : isPackedPII g.val = true
  · simp [hpg]
  · simp only [hpg, Bool.false_eq_true, if_false]
    exact isPackedPII_packPII _ (Hne ns (E.keyGen ns id) g.val)

/-- Witness for C4: a concrete double encryption of a profile-shaped record
returns identical records on the second pass. -/
theorem C4_encrypt_idempotent_witness :
    ∃ e1 recs1 e2,
      protectorEncrypt toyEncrypter (goStr "tenant") (freshEngine 20)
          [⟨goStr "kal5430",
            [⟨goStr "Idir Moore", goStr "deleted pii"⟩, ⟨goStr "M", goStr ""⟩]⟩] 0
        = .ok (e1, recs1) ∧
      protectorEncrypt toyEncrypter (goStr "tenant") e1 recs1 1 = .ok (e2, recs1) :=
  C4_encrypt_idempotent toyEncrypter toyEncrypter_ne_nil (goStr "tenant")
    (goStr "kal5430") [⟨goStr "Idir Moore", goStr "deleted pii"⟩, ⟨goStr "M", goStr ""⟩]
    20 0 1

/-! ## C1 — decrypt ∘ encrypt round trip -/

/-- A record whose first field value merely looks packed (`"<pii::x"`): the
idempotency check makes `Encrypt` keep it, and `Decrypt` then feeds the junk
`"x"` to real (authenticated) decryption. -/
def c1rec : PIIStruct :=
  ⟨goStr "alice", [⟨goStr "<pii::x", goStr ""⟩, ⟨goStr "Idir", goStr ""⟩]⟩

/-- The key the toy generator mints for `alice`. -/
def c1key : GoStr := 900 :: goStr "alice"

/-- The engine state after the counterexample's `Encrypt`. -/
def c1e1 : CachedEngine :=
  ⟨[(goStr "alice", ⟨c1key, 0, .active⟩)], [(goStr "alice", ⟨c1key, 0, .active⟩)], 20⟩

/-- The counterexample's record after `Encrypt`: field 1 kept as-is, field 2
encrypted and packed. -/
def c1recEnc : PIIStruct :=
  ⟨goStr "alice",
   [⟨goStr "<pii::x", goStr ""⟩,
    ⟨packPrefix ++ (999 :: (goStr "Idir" ++ toyTrailer (goStr "tenant") c1key)), goStr ""⟩]⟩

/-- **C1 (counterexample).** The claim quantifies over every string field
value, but a plaintext already in packed form breaks the round trip:
`Encrypt` keeps it (idempotency check), `Decrypt` tries to really decrypt its
unpacked remainder and fails, so the batch comes back with an error and the
records are left encrypted, not byte-equal to the original. -/
theorem C1_packed_plaintext_counterexample :
    protectorEncrypt toyEncrypter (goStr "tenant") (freshEngine 20) [c1rec] 0
      = .ok (c1e1, [c1recEnc]) ∧
    protectorDecrypt toyEncrypter (goStr "tenant") c1e1 [c1recEnc] 0
      = .error errDecryptionFailure ∧
    [c1recEnc] ≠ [c1rec] := by
  refine ⟨by decide, by decide, by decide⟩

/-- **C1 (amended).** For every namespace, subject ID, cache TTL and record
whose field values are not already in packed form, and any encrypter whose
ciphertexts are nonempty, never packed-looking, and round-trip (AES-256-GCM
satisfies the first and third; the second fails only when a ciphertext
starts with the bytes `<pii::`), `Decrypt` after `Encrypt` returns the
records byte-equal to the original. -/
theorem C1_decrypt_encrypt_roundtrip (E : Encrypter)
    (Hrt : ∀ ns k v, E.decrypt ns k (E.encrypt ns k v) = .ok v)
    (Hne : ∀ ns k v, E.encrypt ns k v ≠ [])
    (Hnp : ∀ ns k v, isPackedPII (E.encrypt ns k v) = false)
    (ns id : GoStr) (fields : List PIIField) (ttl now now2 : Int)
    (hfields : ∀ f ∈ fields, isPackedPII f.val = false) :
    ∃ e1 recsEnc e2,
      protectorEncrypt E ns (freshEngine ttl) [⟨id, fields⟩] now = .ok (e1, recsEnc) ∧
      protectorDecrypt E ns e1 recsEnc now2 = .ok (e2, [⟨id, fields⟩]) := by
  refine ⟨⟨[(id, ⟨E.keyGen ns id, now, .active⟩)],
           [(id, ⟨E.keyGen ns id, now, .active⟩)], ttl⟩,
    [⟨id, fields.map (fun f =>
        if isPackedPII f.val then f
        else ⟨packPII (E.encrypt ns (E.keyGen ns id) f.val), f.replacement⟩)⟩],
    ⟨[(id, ⟨E.keyGen ns id, now, .active⟩)],
     [(id, ⟨E.keyGen ns id, now, .active⟩)], ttl⟩,
    protectorEncrypt_fresh E ns id fields ttl now, ?_⟩
  rw [protectorDecrypt,
    if_neg (by simp : ¬ ([(⟨id, fields.map _⟩ : PIIStruct)] : List PIIStruct).isEmpty = true)]
  rw [piiSubjectIDs_single, cGetKeys_single_active]
  have hfield : ∀ f ∈ fields,
      decryptField E ns [(id, E.keyGen ns id)] id
        (if isPackedPII f.val then f
         else ⟨packPII (E.encrypt ns (E.keyGen ns id) f.val), f.replacement⟩) = .ok f := by
    intro f hf
    rw [if_neg (by simp [hfields f hf])]
    rw [decryptField]
    simp only [alookup, if_pos rfl, if_true]
    have h1 : isPackedPII (packPII (E.encrypt ns (E.keyGen ns id) f.val)) = true :=
      isPackedPII_pack_of_ne_nil _ (Hne ns (E.keyGen ns id) f.val)
        (Hnp ns (E.keyGen ns id) f.val)
    simp only [h1, Bool.not_true, Bool.false_eq_true, if_false]
    rw [unpackPII_pack_of_ne_nil _ (Hne ns (E.keyGen ns id) f.val)
      (Hnp ns (E.keyGen ns id) f.val), Hrt]
    rfl
  have hmap := mapE_map_ok (decryptField E ns [(id, E.keyGen ns id)] id) _
    (fun f => f) fields hfield
  simp [mapE_singleton, hmap, List.map_id]

/-- Witness for C1: a concrete profile-shaped record round-trips. -/
theorem C1_decrypt_encrypt_roundtrip_witness :
    ∃ e1 recsEnc e2,
      protectorEncrypt toyEncrypter (goStr "tenant") (freshEngine 20)
          [⟨goStr "kal5430",
            [⟨goStr "Idir Moore", goStr "deleted pii"⟩, ⟨goStr "M", goStr ""⟩]⟩] 0
        = .ok (e1, recsEnc) ∧
      protectorDecrypt toyEncrypter (goStr "tenant") e1 recsEnc 1
        = .ok (e2, [⟨goStr "kal5430",
            [⟨goStr "Idir Moore", goStr "deleted pii"⟩, ⟨goStr "M", goStr ""⟩]⟩]) :=
  C1_decrypt_encrypt_roundtrip toyEncrypter toyEncrypter_roundtrip toyEncrypter_ne_nil
    toyEncrypter_not_packed (goStr "tenant") (goStr "kal5430")
    [⟨goStr "Idir Moore", goStr "deleted pii"⟩, ⟨goStr "M", goStr ""⟩]
    20 0 1 (by decide)

/-! ## C5 — graceful forget, then decrypt replaces fields -/

/-- **C5.** After a previously-encrypted record's subject is forgotten in
graceful mode (the key is DISABLED), `Decrypt` succeeds and replaces every
PII field with its configured `replace` string (which defaults to the empty
string); every field of a previously-encrypted record is in packed wire
form, so no untouched-plaintext case arises. -/
theorem C5_graceful_forget_replaces (E : Encrypter)
    (Hne : ∀ ns k v, E.encrypt ns k v ≠ [])
    (ns id : GoStr) (fields : List PIIField) (ttl now now2 : Int) :
    ∃ e1 recsEnc e2 e3,
      protectorEncrypt E ns (freshEngine ttl) [⟨id, fields⟩] now = .ok (e1, recsEnc) ∧
      (∀ s ∈ recsEnc, ∀ f ∈ s.fields, isPackedPII f.val = true) ∧
      protectorForget true ns e1 id = (.ok (), e2) ∧
      protectorDecrypt E ns e2 recsEnc now2
        = .ok (e3, [⟨id, fields.map (fun f => ⟨f.replacement, f.replacement⟩)⟩]) := by
  refine ⟨⟨[(id, ⟨E.keyGen ns id, now, .active⟩)],
           [(id, ⟨E.keyGen ns id, now, .active⟩)], ttl⟩,
    [⟨id, fields.map (fun f =>
        if isPackedPII f.val then f
        else ⟨packPII (E.encrypt ns (E.keyGen ns id) f.val), f.replacement⟩)⟩],
    ⟨[(id, ⟨E.keyGen ns id, now, .disabled⟩)],
     [(id, ⟨E.keyGen ns id, now, .disabled⟩)], ttl⟩,
    ⟨[(id, ⟨E.keyGen ns id, now, .disabled⟩)],
     [(id, ⟨E.keyGen ns id, now, .disabled⟩)], ttl⟩,
    protectorEncrypt_fresh E ns id fields ttl now, ?_, ?_, ?_⟩
  · intro s hs f hf
    simp only [List.mem_singleton] at hs
    subst hs
    simp only [List.mem_map] at hf
    obtain ⟨g, hg, rfl⟩ := hf
    by_cases hpg : isPackedPII g.val = true
    · simp [hpg]
    · simp only [hpg, Bool.false_eq_true, if_false]
      exact isPackedPII_packPII _ (Hne ns (E.keyGen ns id) g.val)
  · simp [protectorForget, cDisableKey_single_active]
  · rw [protectorDecrypt,
      if_neg (by simp :
        ¬ ([(⟨id, fields.map _⟩ : PIIStruct)] : List PIIStruct).isEmpty = true)]
    rw [piiSubjectIDs_single, cGetKeys_single_disabled]
    have hfield : ∀ f ∈ fields,
        decryptField E ns [] id
          (if isPackedPII f.val then f
           else ⟨packPII (E.encrypt ns (E.keyGen ns id) f.val), f.replacement⟩)
          = .ok ⟨f.replacement, f.replacement⟩ := by
      intro f hf
      rw [decryptField]
      by_cases hpg : isPackedPII f.val = true <;> simp [alookup, hpg]
    have hmap := mapE_map_ok (decryptField E ns [] id) _
      (fun f => (⟨f.replacement, f.replacement⟩ : PIIField)) fields hfield
    simp [mapE_singleton, hmap]

/-- Witness for C5: forgetting `kal5430` after encryption makes `Decrypt`
return the configured replacements. -/
theorem C5_graceful_forget_replaces_witness :
    ∃ e1 recsEnc e2 e3,
      protectorEncrypt toyEncrypter (goStr "tenant") (freshEngine 20)
          [⟨goStr "kal5430",
            [⟨goStr "Idir Moore", goStr "deleted pii"⟩, ⟨goStr "M", goStr ""⟩]⟩] 0
        = .ok (e1, recsEnc) ∧
      (∀ s ∈ recsEnc, ∀ f ∈ s.fields, isPackedPII f.val = true) ∧
      protectorForget true (goStr "tenant") e1 (goStr "kal5430") = (.ok (), e2) ∧
      protectorDecrypt toyEncrypter (goStr "tenant") e2 recsEnc 1
        = .ok (e3, [⟨goStr "kal5430",
            [⟨goStr "deleted pii", goStr "deleted pii"⟩, ⟨goStr "", goStr ""⟩]⟩]) :=
  C5_graceful_forget_replaces toyEncrypter toyEncrypter_ne_nil (goStr "tenant")
    (goStr "kal5430") [⟨goStr "Idir Moore", goStr "deleted pii"⟩, ⟨goStr "M", goStr ""⟩]
    20 0 1

/-! ## C3 — which subject IDs Decrypt requests -/

/-- Modelled from the spec (§4.8 `decrypt`): "the set of subject IDs embedded
in the existing ciphertexts" — every field value in §4.6 wire format
contributes its embedded (parsed) subject ID.  This definition follows the
specification's words, for comparison against what the source's `Decrypt`
actually requests. -/
def specEmbeddedSubjectIDs (recs : List PIIStruct) : List GoStr :=
  (recs.flatMap (fun s => s.fields.filterMap (fun f =>
      match parseWireFormat f.val with
      | .ok (_, subj, _) => some subj
      | .error _ => none))).dedup

/-- A record whose record-level subject is `alice` while its only field is a
§4.6 wire-format ciphertext embedding subject `bob`. -/
def c3rec : PIIStruct :=
  ⟨goStr "alice", [⟨wireFormat (goStr "bob") (goStr "YWJj") [], goStr ""⟩]⟩

/-- An engine whose cache and store hold an ACTIVE key for `bob` only. -/
def c3engine : CachedEngine :=
  ⟨[(goStr "bob", ⟨goStr "KB", 0, .active⟩)],
   [(goStr "bob", ⟨goStr "KB", 0, .active⟩)], 20⟩

/-- **C3 (counterexample).** `Decrypt` requests keys for the record-level
subject IDs (`structs.subjectIDs()`), not for the subject IDs embedded in
the ciphertexts: on `c3rec` it requests `alice` although the only embedded
subject is `bob` — and although `bob`'s key is ACTIVE in the engine, the
field is replaced (treated as subject-forgotten) because `alice` has no key.
The packed layer of this Protector embeds no subject ID at all. -/
theorem C3_record_level_counterexample :
    piiSubjectIDs [c3rec] = [goStr "alice"] ∧
    specEmbeddedSubjectIDs [c3rec] = [goStr "bob"] ∧
    (goStr "bob") ∉ piiSubjectIDs [c3rec] ∧
    (goStr "alice") ∉ specEmbeddedSubjectIDs [c3rec] ∧
    protectorDecrypt toyEncrypter (goStr "tenant") c3engine [c3rec] 0
      = .ok (c3engine, [⟨goStr "alice", [⟨goStr "", goStr ""⟩]⟩]) := by
  refine ⟨by decide, by decide, by decide, by decide, by decide⟩

/-- **C3 (amended).** `Decrypt` collects the record-level subject IDs of the
scanned records, deduplicated, and requests exactly those from the Key
Engine; each field is then decrypted with the key looked up under its
record's subject ID.  The deduplicated request list contains each requested
subject once and nothing but the records' subjects. -/
theorem C3_decrypt_requests_record_subjects (E : Encrypter) (ns : GoStr)
    (e : CachedEngine) (recs : List PIIStruct) (now : Int) :
    protectorDecrypt E ns e recs now
      = (if recs.isEmpty then .ok (e, recs)
         else
           (mapE (fun (s : PIIStruct) =>
               (mapE (decryptField E ns (cGetKeys e (piiSubjectIDs recs) now).1 s.subID)
                  s.fields).map
                 (fun fields' => { s with fields := fields' })) recs).map
             (fun recs' => ((cGetKeys e (piiSubjectIDs recs) now).2, recs'))) ∧
    (piiSubjectIDs recs).Nodup ∧
    (∀ x : GoStr, x ∈ piiSubjectIDs recs ↔ ∃ s ∈ recs, s.subID = x) := by
  refine ⟨rfl, List.nodup_dedup _, ?_⟩
  intro x
  simp [piiSubjectIDs, List.mem_dedup, List.mem_map]

end PII
